import Mathlib

/-!
Shallow embedding of the HMM parameter-estimation core in
`ssm_jax/hmm/models/base.py` (classes `BaseHMM` and `StandardHMM`).

Conventions of the embedding:
* machine floats become exact rationals (ℚ); `jnp` arrays become lists
  (`Vec` for rank 1, `Mat` for rank 2);
* the external collaborators (the inference primitives `hmm_filter`,
  `hmm_two_filter_smoother`, `compute_transition_probs`, the optimizer
  `run_sgd`, the distribution objects and the `Parameter` abstraction) are
  repository code that is not part of the shown core; where a claim needs
  them they are modelled from the specification, and such definitions carry
  a doc comment starting with "Modelled from the spec";
* Python exceptions become `Except PyError`;
* the mutable model object is threaded explicitly: each mutating method
  becomes a function from the parameter record to a new parameter record.
-/

abbrev Vec := List ℚ

abbrev Mat := List Vec

/-- Sum of the entries of a vector (`jnp.sum` on a rank-1 array). -/
def vsum (v : Vec) : ℚ := v.sum

/-- Elementwise sum of two equal-length vectors (`+` on rank-1 arrays). -/
def vadd (a b : Vec) : Vec := List.zipWith (· + ·) a b

/-- Elementwise sum of two equal-shape matrices (`+` on rank-2 arrays). -/
def madd (a b : Mat) : Mat := List.zipWith vadd a b

/-- Sum of a stacked batch of vectors over the batch axis (`.sum(axis=0)`
on a rank-2 array viewed as a list of rows). -/
def sumVecs : List Vec → Vec
  | [] => []
  | v :: vs => vs.foldl vadd v

/-- Sum of a stacked batch of matrices over the batch axis (`.sum(axis=0)`
on a rank-3 array viewed as a list of matrices). -/
def sumMats : List Mat → Mat
  | [] => []
  | m :: ms => ms.foldl madd m

/-- Dot product of two vectors. -/
def vdot (a b : Vec) : ℚ := (List.zipWith (· * ·) a b).sum

/-- Elementwise product-and-total of two matrices (`jnp.sum(a * b)`). -/
def mdot (a b : Mat) : ℚ := (List.zipWith vdot a b).sum

/-- Broadcast addition of a length-K vector to each row of a matrix
(numpy broadcasting of shapes `(K,)` and `(N, K)`). -/
def addToRows (c : Vec) (m : Mat) : Mat := m.map (vadd c)

/-- Total number of scalar elements of a stacked emissions batch
(`batch_emissions.size` for a rectangular `(N, T, D)` array, with each
time step an emission vector). -/
def jsize (batch : List (List Vec)) : ℕ :=
  (batch.map fun s => (s.map List.length).sum).sum

/-- Python exceptions that the embedded code can raise. -/
inductive PyError
  | attributeError (name : String)
  | unboundLocal (name : String)
  | zeroDivision
  deriving DecidableEq

/-- Result of `_compute_transition_matrices`: a single `K×K` matrix
(rank 2, the time-homogeneous case) or a stack of `K×K` matrices
(rank 3, one per covariate realization). -/
inductive TransMats
  | homogeneous (m : Mat)
  | batched (ms : List Mat)
  deriving DecidableEq

/-- The `.ndim` of the array held by a `TransMats`. -/
def TransMats.ndim : TransMats → ℕ
  | .homogeneous _ => 2
  | .batched _ => 3

/-- The pairwise transition statistic stored in a posterior: either the
counts summed over time (a `K×K` matrix) or the per-time-step tensor. -/
inductive TransStats
  | reduced (counts : Mat)
  | perStep (counts : List Mat)
  deriving DecidableEq

/-- View of a per-sequence transition statistic as a single matrix, as read
by the conjugate transition update. For posteriors of the homogeneous
`e_step` the statistic is always `.reduced` (see the rank switch in
`e_step`); the `.perStep` branch only keeps the function total. -/
def transProbsMat : TransStats → Mat
  | .reduced c => c
  | .perStep cs => sumMats cs

/-- Output of the external primitive `hmm_filter`: per spec §6 it carries
the marginal log-likelihood and the filtered state probabilities. -/
structure FilterPosterior where
  marginal_loglik : ℚ
  filtered_probs : Mat
  deriving DecidableEq

/-- Output of the external primitive `hmm_two_filter_smoother` before the
E-step attaches transition statistics: marginal log-likelihood, smoothed
state probabilities and expected initial-state occupancies (the
`initial_probs` field read by the conjugate initial-distribution update). -/
structure SmootherPosterior where
  marginal_loglik : ℚ
  smoothed_probs : Mat
  initial_probs : Vec
  deriving DecidableEq

/-- A per-sequence E-step posterior after `e_step` has attached the
pairwise transition statistic `trans_probs`. -/
structure Posterior where
  marginal_loglik : ℚ
  smoothed_probs : Mat
  initial_probs : Vec
  trans_probs : TransStats
  deriving DecidableEq

/-- Modelled from the spec: the mode of a Dirichlet distribution with
concentration vector `α` is `(α i - 1) / (Σ α - K)` elementwise (§4.4);
the distribution object itself is external library code. -/
def dirichletMode (α : Vec) : Vec :=
  α.map fun a => (a - 1) / (vsum α - (α.length : ℚ))

/-- Modelled from the spec: `compute_transition_probs(transition_matrices,
posterior, reduce_sum)` from the external inference module (§6) returns the
pairwise expected transition counts; the per-time-step counts computation is
the external primitive, abstracted here as the argument `perStepCounts`, and
`reduce_sum` selects summing over time versus keeping the per-time-step
tensor (§4.3, §6). -/
def compute_transition_probs (perStepCounts : TransMats → SmootherPosterior → List Mat)
    (transition_matrices : TransMats) (posterior : SmootherPosterior)
    (reduce_sum : Bool) : TransStats :=
  let counts := perStepCounts transition_matrices posterior
  if reduce_sum then .reduced (sumMats counts) else .perStep counts

/-- The pieces of a `BaseHMM` instance that the inference and EM code reads,
at one fixed parameter state: the three statistic extractors
(`_compute_initial_probs`, `_compute_transition_matrices` with no
covariates, `_compute_conditional_logliks`), `log_prior`, and the external
inference primitives it calls (abstracted as function fields). -/
structure BaseHMMSig (Obs : Type) where
  initialProbs : Vec
  transMats : TransMats
  condLogliks : List Obs → Mat
  log_prior : ℚ
  hmm_filter : Vec → TransMats → Mat → FilterPosterior
  hmm_two_filter_smoother : Vec → TransMats → Mat → SmootherPosterior
  transCounts : TransMats → SmootherPosterior → List Mat

/-- `BaseHMM.marginal_log_prob`: run `hmm_filter` on the three statistics
and return the `marginal_loglik` field of its output. -/
def marginal_log_prob (M : BaseHMMSig Obs) (emissions : List Obs) : ℚ :=
  let post := M.hmm_filter M.initialProbs M.transMats (M.condLogliks emissions)
  post.marginal_loglik

/-- `BaseHMM.filter`: run `hmm_filter` on the three statistics and return
its output (the filtering distribution). -/
def hmmFilterMethod (M : BaseHMMSig Obs) (emissions : List Obs) : FilterPosterior :=
  M.hmm_filter M.initialProbs M.transMats (M.condLogliks emissions)

/-- The body of `_single_e_step` inside `BaseHMM.e_step`: run the two-filter
smoother, then attach the pairwise transition statistic, reducing over time
exactly when the transition-matrix statistic has rank 2. -/
def eStepSingle (M : BaseHMMSig Obs) (emissions : List Obs) : Posterior :=
  let transition_matrices := M.transMats
  let p := M.hmm_two_filter_smoother M.initialProbs transition_matrices
             (M.condLogliks emissions)
  { marginal_loglik := p.marginal_loglik
    smoothed_probs := p.smoothed_probs
    initial_probs := p.initial_probs
    trans_probs := compute_transition_probs M.transCounts transition_matrices p
                     (transition_matrices.ndim == 2) }

/-- `BaseHMM.e_step`: `vmap` of `_single_e_step` over the batch. -/
def e_step (M : BaseHMMSig Obs) (batch_emissions : List (List Obs)) : List Posterior :=
  batch_emissions.map (eStepSingle M)

/-- The transition-distribution surface of a `BaseHMM` used by
`_compute_transition_matrices`: `probsNoCov state` is
`transition_distribution(state).probs_parameter()` and `probsCov c state`
is `transition_distribution(state, **covariate).probs_parameter()`. -/
structure TransDistSig (Cov : Type) where
  num_states : ℕ
  probsNoCov : ℕ → Vec
  probsCov : Cov → ℕ → Vec

/-- `BaseHMM._compute_transition_matrices`: with covariates, the outer
`vmap` runs over the covariate batch and the inner `vmap` over the origin
states `jnp.arange(num_states)`; with no covariates, a single `vmap` over
the origin states. -/
def compute_transition_matrices (M : TransDistSig Cov) :
    Option (List Cov) → TransMats
  | some covariates =>
      .batched (covariates.map fun c =>
        (List.range M.num_states).map (M.probsCov c))
  | none =>
      .homogeneous ((List.range M.num_states).map M.probsNoCov)

/-- The parameter record of a `StandardHMM`: the two trainable distribution
parameters and the two frozen prior-concentration hyperparameters stored by
`StandardHMM.__init__`. -/
structure StandardHMMParams where
  initial_probs : Vec
  transition_matrix : Mat
  initial_probs_concentration : Vec
  transition_matrix_concentration : Vec
  deriving DecidableEq

/-- Number of columns of a matrix, i.e. `shape[-1]` of a rank-2 array. -/
def matNumCols (m : Mat) : ℕ := (m.headD []).length

/-- The `shape` tuple of a rank-2 array. -/
def matShape (m : Mat) : ℕ × ℕ := (m.length, matNumCols m)

/-- A list of rows represents a rank-2 array exactly when it is
rectangular: every row has the length of the first row. -/
def isRect (m : Mat) : Prop := ∀ r ∈ m, r.length = matNumCols m

instance (m : Mat) : Decidable (isRect m) := by
  unfold isRect; infer_instance

/-- `StandardHMM.__init__`: reads `num_states` from
`transition_matrix.shape[-1]`, asserts the two shape checks eagerly, and on
success stores the parameters together with the frozen concentration
vectors `c * jnp.ones(num_states)`; a failed assert aborts construction
(no model object is produced, modelled as `none`). -/
def mkStandardHMM (initial_probabilities : Vec) (transition_matrix : Mat)
    (initial_probs_concentration transition_matrix_concentration : ℚ) :
    Option StandardHMMParams :=
  let num_states := matNumCols transition_matrix
  if initial_probabilities.length = num_states ∧
      matShape transition_matrix = (num_states, num_states) then
    some { initial_probs := initial_probabilities
           transition_matrix := transition_matrix
           initial_probs_concentration :=
             List.replicate num_states initial_probs_concentration
           transition_matrix_concentration :=
             List.replicate num_states transition_matrix_concentration }
  else none

/-- `StandardHMM._m_step_initial_probs`: set `_initial_probs` to the mode of
a Dirichlet whose concentration is the stored prior concentration plus
`batch_posteriors.initial_probs.sum(axis=0)` (the expected initial-state
occupancies summed over the batch). -/
def m_step_initial_probs (m : StandardHMMParams)
    (batch_posteriors : List Posterior) : StandardHMMParams :=
  { m with initial_probs :=
      dirichletMode (vadd m.initial_probs_concentration
        (sumVecs (batch_posteriors.map Posterior.initial_probs))) }

/-- `StandardHMM._m_step_transition_matrix`: set `_transition_matrix` to the
rowwise mode of a Dirichlet batch whose concentration is the stored prior
concentration vector broadcast-added to
`batch_posteriors.trans_probs.sum(axis=0)` (the expected pairwise
transition counts summed over the batch). -/
def m_step_transition_matrix (m : StandardHMMParams)
    (batch_posteriors : List Posterior) : StandardHMMParams :=
  let counts := sumMats (batch_posteriors.map fun p => transProbsMat p.trans_probs)
  { m with transition_matrix :=
      (addToRows m.transition_matrix_concentration counts).map dirichletMode }

/-- `StandardHMM.m_step` without its final gradient sub-step: the two
closed-form conjugate updates run in source order (initial probabilities
first, then the transition matrix). -/
def m_step_conjugate (m : StandardHMMParams)
    (batch_posteriors : List Posterior) : StandardHMMParams :=
  m_step_transition_matrix (m_step_initial_probs m batch_posteriors) batch_posteriors

/-- Modelled from the spec: a bijective reparameterizing transform (§6),
with a forward map to the unconstrained space and its inverse. -/
structure Bijector (A B : Type) where
  forward : A → B
  inverse : B → A

/-- Modelled from the spec: the `Parameter` abstraction (§3, §4.1) from the
external `ssm_jax.abstractions` module — a constrained value (the source
of truth), its reparameterizing bijector, and the frozen flag. -/
structure Param (A B : Type) where
  value : A
  bij : Bijector A B
  is_frozen : Bool

/-- Modelled from the spec: the unconstrained view of a `Parameter` is
derived on demand from the constrained value (§4.1). -/
def Param.unconstrained (p : Param A B) : B := p.bij.forward p.value

/-- Modelled from the spec: writing the unconstrained view stores the
inverse-transformed value as the new constrained value (§4.1). -/
def Param.setUnconstrained (p : Param A B) (u : B) : Param A B :=
  { p with value := p.bij.inverse u }

/-- The components of one EM iteration that `BaseHMM.fit_em` composes,
with the implicit `self.unconstrained_params` state threaded explicitly as
a value of type `P`: `e_step` and `log_prior` read the parameters, and
`m_step` produces the updated parameters from the batch and its posteriors. -/
structure EMModel (P Obs : Type) where
  e_step : P → List (List Obs) → List Posterior
  log_prior : P → ℚ
  m_step : P → List (List Obs) → List Posterior → P

/-- The recorded quantity of one EM iteration: the incomplete-data log
joint, i.e. `self.log_prior() + batch_posteriors.marginal_loglik.sum()`
at the given parameter state. -/
def emLogJoint (M : EMModel P Obs) (batch_emissions : List (List Obs)) (params : P) : ℚ :=
  M.log_prior params +
    ((M.e_step params batch_emissions).map Posterior.marginal_loglik).sum

/-- The jitted `em_step` closure inside `BaseHMM.fit_em`: run the E-step at
the current parameters, record the incomplete-data log joint at those
parameters, then run the M-step; return the updated parameters and the
recorded value. -/
def em_step (M : EMModel P Obs) (batch_emissions : List (List Obs)) (params : P) :
    P × ℚ :=
  let batch_posteriors := M.e_step params batch_emissions
  let lp := M.log_prior params + (batch_posteriors.map Posterior.marginal_loglik).sum
  (M.m_step params batch_emissions batch_posteriors, lp)

/-- `BaseHMM.fit_em`: iterate `em_step` for `num_iters` iterations starting
from the current parameters, appending each recorded log joint; return the
final parameters and the per-iteration trajectory. -/
def fit_em (M : EMModel P Obs) (batch_emissions : List (List Obs)) (params : P) :
    ℕ → P × List ℚ
  | 0 => (params, [])
  | n + 1 =>
      let step := em_step M batch_emissions params
      let rest := fit_em M batch_emissions step.1 n
      (rest.1, step.2 :: rest.2)

/-- The parameter state at the start of iteration `i` of `fit_em`: the
`i`-fold composition of `em_step` applied to the starting parameters. -/
def emParamsAt (M : EMModel P Obs) (batch_emissions : List (List Obs)) (params : P) :
    ℕ → P
  | 0 => params
  | i + 1 => emParamsAt M batch_emissions (em_step M batch_emissions params).1 i

/-- Structural worker for `chunkList`: the fuel argument bounds the number
of chunks produced and is instantiated with the list length. -/
def chunkListAux (b : ℕ) : ℕ → List α → List (List α)
  | 0, _ => []
  | _, [] => []
  | fuel + 1, x :: xs => (x :: xs.take b) :: chunkListAux b fuel (xs.drop b)

/-- Split a list into consecutive chunks of `b + 1` elements (the last
chunk may be shorter). -/
def chunkList (b : ℕ) (l : List α) : List (List α) := chunkListAux b l.length l

/-- Modelled from the spec: the external SGD driver (§6) builds its
minibatches as consecutive chunks of whole sequences from the (optionally
shuffled) dataset (§4.6); `order` is the dataset after the optional
shuffle. Chunks of `batch_size - 1 + 1` elements, at least 1 per chunk. -/
def sgdMinibatches (order : List α) (batch_size : ℕ) : List (List α) :=
  chunkList (batch_size - 1) order

/-- Modelled from the spec: the external SGD driver `run_sgd` (§6)
evaluates the loss on each successive minibatch, recording the loss
trajectory, and updates the parameters by a gradient step (abstracted here
as `step`); an exception raised by a loss evaluation propagates. -/
def run_sgd (loss : P → List D → Except PyError ℚ) (step : P → List D → P)
    (params : P) : List (List D) → Except PyError (P × List ℚ)
  | [] => .ok (params, [])
  | mb :: rest =>
      match loss params mb with
      | .error e => .error e
      | .ok l =>
          match run_sgd loss step (step params mb) rest with
          | .error e => .error e
          | .ok pl => .ok (pl.1, l :: pl.2)

/-- The minibatch schedule of a fixed-epoch SGD run: every epoch visits the
chunked dataset once. -/
def epochSchedule (data : List D) (batch_size num_epochs : ℕ) : List (List D) :=
  (List.replicate num_epochs (sgdMinibatches data batch_size)).flatten

/-- The `_loss_fn` closure of `BaseHMM.fit_sgd`, with the model state
reconstructed from the parameters by `mdl` (the effect of
`self.unconstrained_params = params`): the negative of the log prior plus
the minibatch marginal log-likelihoods scaled by the full-to-minibatch
size ratio, normalized by the total element count of the full batch.
Division is the total ℚ division; the Python `len(...) / len(...)`
raises on an empty minibatch, which the minibatch schedule never produces
from a nonempty dataset. -/
def sgd_loss_fn (mdl : P → BaseHMMSig (List ℚ)) (batch_emissions : List (List Vec))
    (params : P) (minibatch_emissions : List (List Vec)) : ℚ :=
  let M := mdl params
  let scale := (batch_emissions.length : ℚ) / (minibatch_emissions.length : ℚ)
  let minibatch_lls := minibatch_emissions.map (marginal_log_prob M)
  let lp := M.log_prior + minibatch_lls.sum * scale
  (-lp) / (jsize batch_emissions : ℚ)

/-- `BaseHMM.fit_sgd`: run the external SGD driver on `_loss_fn` over the
fixed-epoch minibatch schedule of whole sequences, with the gradient step
abstracted as `step`; the loss here is total, so the driver never raises. -/
def fit_sgd (mdl : P → BaseHMMSig (List ℚ)) (step : P → List (List Vec) → P)
    (params : P) (batch_emissions : List (List Vec))
    (batch_size num_epochs : ℕ) : Except PyError (P × List ℚ) :=
  run_sgd (fun p mb => .ok (sgd_loss_fn mdl batch_emissions p mb)) step params
    (epochSchedule batch_emissions batch_size num_epochs)

/-- Modelled from the spec: the attribute surface of the model classes.
`_single_expected_log_like` in `StandardHMM._m_step_emissions` reads
`self._conditional_logliks`; the statistic extractor defined by the shown
core is `_compute_conditional_logliks`, and the Model Interface of the
external `SSM` base class (§2) exposes no `_conditional_logliks` either,
so the attribute lookup finds nothing. -/
def condLogliksAttrLookup : Option (List Vec → Mat) := none

/-- The `_single_expected_log_like` closure inside
`StandardHMM._m_step_emissions`, with Python attribute lookup and local
variable semantics made explicit: the first line reads the attribute
`_conditional_logliks` (an absent attribute raises), and the accumulation
line reads the local `lp`, which no earlier statement has assigned, before
adding `jnp.sum(expected_states * log_likelihoods)` to it. -/
def single_expected_log_like (condAttr : Option (List Vec → Mat))
    (emissions : List Vec) (posterior : Posterior) : Except PyError ℚ :=
  match condAttr with
  | none => .error (.attributeError "_conditional_logliks")
  | some conditionalLogliks =>
      let log_likelihoods := conditionalLogliks emissions
      let expected_states := posterior.smoothed_probs
      match (none : Option ℚ) with
      | none => .error (.unboundLocal "lp")
      | some lp => .ok (lp + mdot expected_states log_likelihoods)

/-- The `neg_expected_log_joint` closure inside
`StandardHMM._m_step_emissions`: scale by the full-to-minibatch length
ratio (a Python integer division that raises on an empty minibatch), map
`_single_expected_log_like` over the minibatch pairs, and combine with the
log prior at the just-written parameters, normalized by the total element
count; model state reconstruction from `params` is abstracted by
`log_prior`. -/
def std_neg_expected_log_joint (condAttr : Option (List Vec → Mat))
    (log_prior : P → ℚ) (batch_emissions : List (List Vec)) (params : P)
    (minibatch : List (List Vec × Posterior)) : Except PyError ℚ :=
  if minibatch.length = 0 then .error .zeroDivision
  else
    let scale := (batch_emissions.length : ℚ) / (minibatch.length : ℚ)
    match minibatch.mapM (fun ep => single_expected_log_like condAttr ep.1 ep.2) with
    | .error e => .error e
    | .ok ells =>
        .ok ((-(log_prior params + ells.sum * scale)) / (jsize batch_emissions : ℚ))

/-- `StandardHMM._m_step_emissions`: run the external SGD driver on
`neg_expected_log_joint` over the zipped `(emissions, posterior)` data for
`num_mstep_iters` epochs, returning the optimized unconstrained
parameters. -/
def m_step_emissions (condAttr : Option (List Vec → Mat)) (log_prior : P → ℚ)
    (step : P → List (List Vec × Posterior) → P) (params : P)
    (batch_emissions : List (List Vec)) (batch_posteriors : List Posterior)
    (batch_size num_mstep_iters : ℕ) : Except PyError P :=
  match run_sgd (std_neg_expected_log_joint condAttr log_prior batch_emissions)
      step params
      (epochSchedule (batch_emissions.zip batch_posteriors) batch_size num_mstep_iters) with
  | .error e => .error e
  | .ok pl => .ok pl.1

/-- `StandardHMM.m_step`: the two closed-form conjugate sub-steps in source
order, then the gradient-based emission sub-step; the updated parameter
record and unconstrained emission parameters are returned only if the
emission sub-step returns. -/
def std_m_step (condAttr : Option (List Vec → Mat)) (log_prior : P → ℚ)
    (step : P → List (List Vec × Posterior) → P)
    (m : StandardHMMParams) (params : P)
    (batch_emissions : List (List Vec)) (batch_posteriors : List Posterior)
    (batch_size num_mstep_iters : ℕ) :
    Except PyError (StandardHMMParams × P) :=
  let m1 := m_step_initial_probs m batch_posteriors
  let m2 := m_step_transition_matrix m1 batch_posteriors
  match m_step_emissions condAttr log_prior step params batch_emissions
      batch_posteriors batch_size num_mstep_iters with
  | .error e => .error e
  | .ok p => .ok (m2, p)

/-- A concrete two-state posterior for concrete evaluations. -/
def exPost1 : Posterior :=
  { marginal_loglik := 1
    smoothed_probs := [[1, 0], [0, 1]]
    initial_probs := [1, 0]
    trans_probs := .reduced [[1, 0], [0, 1]] }

/-- A second concrete two-state posterior for concrete evaluations. -/
def exPost2 : Posterior :=
  { marginal_loglik := 2
    smoothed_probs := [[0, 1], [1, 0]]
    initial_probs := [0, 1]
    trans_probs := .reduced [[0, 1], [1, 0]] }

/-- A concrete two-state `StandardHMM` parameter record. -/
def exModel : StandardHMMParams :=
  { initial_probs := [1/2, 1/2]
    transition_matrix := [[9/10, 1/10], [1/10, 9/10]]
    initial_probs_concentration := [11/10, 11/10]
    transition_matrix_concentration := [11/10, 11/10] }

/-- A concrete batch of two emission sequences of two vector time steps. -/
def exBatch : List (List Vec) := [[[1, 0], [0, 1]], [[2, 1], [1, 2]]]

/-- A concrete batch of posteriors matching `exBatch`. -/
def exPosts : List Posterior := [exPost1, exPost2]

/-- A concrete `BaseHMMSig` with a homogeneous (rank-2) transition-matrix
statistic and simple concrete stand-ins for the external primitives. -/
def exSig : BaseHMMSig Vec :=
  { initialProbs := [1/2, 1/2]
    transMats := .homogeneous [[9/10, 1/10], [1/10, 9/10]]
    condLogliks := fun e => e.map fun x => [x.sum, -x.sum]
    log_prior := 3
    hmm_filter := fun ip _ ll =>
      { marginal_loglik := vsum ip + (ll.map vsum).sum, filtered_probs := ll }
    hmm_two_filter_smoother := fun ip _ ll =>
      { marginal_loglik := (ll.map vsum).sum, smoothed_probs := ll, initial_probs := ip }
    transCounts := fun _ p => p.smoothed_probs.map fun r => [r, r] }

/-- The same concrete model with a batched (rank-3) transition-matrix
statistic. -/
def exSigBatched : BaseHMMSig Vec :=
  { exSig with transMats := .batched [[[9/10, 1/10], [1/10, 9/10]]] }

/-- A concrete `EMModel` over scalar observations with rational parameters. -/
def exEMModel : EMModel ℚ ℚ :=
  { e_step := fun p batch => batch.map fun s =>
      { marginal_loglik := p + s.sum
        smoothed_probs := []
        initial_probs := []
        trans_probs := .reduced [] }
    log_prior := fun p => 2 * p
    m_step := fun p _ _ => p + 1 }

/-- A concrete `Parameter` whose bijector is the identity. -/
def exParam : Param Vec Vec :=
  { value := [1/2, 1/2]
    bij := { forward := fun v => v, inverse := fun v => v }
    is_frozen := false }

/-- A concrete transition-distribution surface over rational covariates. -/
def exTransDist : TransDistSig ℚ :=
  { num_states := 2
    probsNoCov := fun i => if i = 0 then [9/10, 1/10] else [1/10, 9/10]
    probsCov := fun c i => if i = 0 then [c, 1 - c] else [1 - c, c] }

/-- C10: `marginal_log_prob emissions` equals
`filter(emissions).marginal_loglik` — both run the same `hmm_filter`
primitive on the same initial probabilities, transition matrices and
conditional log-likelihood matrix, and `marginal_log_prob` returns just
the `marginal_loglik` field of the result of `filter`. -/
theorem c10_marginal_log_prob_is_filter_loglik {Obs : Type}
    (M : BaseHMMSig Obs) (emissions : List Obs) :
    marginal_log_prob M emissions = (hmmFilterMethod M emissions).marginal_loglik := by
  rfl


/-- C9: for a rectangular (array-shaped) transition matrix, construction of
a `StandardHMM` succeeds exactly when the initial-probability vector has
shape `(K,)` and the transition matrix has shape `(K, K)` with `K` the
last dimension of the transition matrix; on success the model stores the
given parameters (and the concentration hyperparameter vectors), and on a
shape mismatch no model object is produced — the check is part of the
constructor itself, not deferred to first use. -/
theorem c9_shape_check_eager (ip : Vec) (tm : Mat) (ci ct : ℚ)
    (_hrect : isRect tm) :
    ((∃ model, mkStandardHMM ip tm ci ct = some model) ↔
      (ip.length = matNumCols tm ∧ matShape tm = (matNumCols tm, matNumCols tm)))
    ∧ (∀ model, mkStandardHMM ip tm ci ct = some model →
        model.initial_probs = ip ∧ model.transition_matrix = tm ∧
        model.initial_probs_concentration = List.replicate (matNumCols tm) ci ∧
        model.transition_matrix_concentration = List.replicate (matNumCols tm) ct) := by
  constructor
  · constructor
    · rintro ⟨model, hm⟩
      by_cases h : ip.length = matNumCols tm ∧ matShape tm = (matNumCols tm, matNumCols tm)
      · exact h
      · simp only [mkStandardHMM] at hm
        rw [if_neg h] at hm
        exact Option.noConfusion hm
    · intro h
      exact ⟨_, by simp only [mkStandardHMM]; rw [if_pos h]⟩
  · intro model hm
    by_cases h : ip.length = matNumCols tm ∧ matShape tm = (matNumCols tm, matNumCols tm)
    · simp only [mkStandardHMM] at hm
      rw [if_pos h] at hm
      cases hm
      exact ⟨rfl, rfl, rfl, rfl⟩
    · simp only [mkStandardHMM] at hm
      rw [if_neg h] at hm
      exact Option.noConfusion hm

/-- C9 witness: a conforming 2-state construction, instantiating
`c9_shape_check_eager` at a concrete rectangular input. -/
theorem c9_shape_check_eager_witness :
    ((∃ model, mkStandardHMM [1/2, 1/2] [[9/10, 1/10], [1/10, 9/10]] (11/10) (11/10) = some model) ↔
      (([(1:ℚ)/2, 1/2].length = matNumCols [[9/10, 1/10], [1/10, 9/10]] ∧
        matShape [[9/10, 1/10], [1/10, 9/10]] =
          (matNumCols [[9/10, 1/10], [1/10, 9/10]], matNumCols [[9/10, 1/10], [1/10, 9/10]]))))
    ∧ (∀ model, mkStandardHMM [1/2, 1/2] [[9/10, 1/10], [1/10, 9/10]] (11/10) (11/10) = some model →
        model.initial_probs = [1/2, 1/2] ∧
        model.transition_matrix = [[9/10, 1/10], [1/10, 9/10]] ∧
        model.initial_probs_concentration = List.replicate (matNumCols [[9/10, 1/10], [1/10, 9/10]]) (11/10) ∧
        model.transition_matrix_concentration = List.replicate (matNumCols [[9/10, 1/10], [1/10, 9/10]]) (11/10)) :=
  c9_shape_check_eager [1/2, 1/2] [[9/10, 1/10], [1/10, 9/10]] (11/10) (11/10) (by decide)

/-- C5: with no covariates, `_compute_transition_matrices` returns a single
rank-2 `K×K` matrix whose row `i` is the probability vector of
`transition_distribution(i)`; with covariates, it returns a rank-3 batched
tensor with one such `K×K` matrix per covariate realization, whose leading
dimension is the covariate batch size, and whose entry at `(j, i)` is the
probability vector of `transition_distribution(i)` under covariate `j`. -/
theorem c5_compute_transition_matrices {Cov : Type} (M : TransDistSig Cov)
    (cs : List Cov)
    (hrowsNo : ∀ i, (M.probsNoCov i).length = M.num_states)
    (hrowsCov : ∀ c i, (M.probsCov c i).length = M.num_states) :
    (∃ rows, compute_transition_matrices M none = .homogeneous rows
      ∧ rows.length = M.num_states
      ∧ (∀ r ∈ rows, r.length = M.num_states)
      ∧ (∀ i : ℕ, rows[i]? = if i < M.num_states then some (M.probsNoCov i) else none))
    ∧ (∃ mats, compute_transition_matrices M (some cs) = .batched mats
      ∧ mats.length = cs.length
      ∧ mats.map List.length = List.replicate cs.length M.num_states
      ∧ (∀ mt ∈ mats, ∀ r ∈ mt, r.length = M.num_states)
      ∧ (∀ j i : ℕ, mats[j]?.bind (fun mt => mt[i]?) =
          cs[j]?.bind (fun c =>
            if i < M.num_states then some (M.probsCov c i) else none))) := by
  constructor
  · refine ⟨(List.range M.num_states).map M.probsNoCov, rfl, by simp, ?_, ?_⟩
    · intro r hr
      obtain ⟨i, _, rfl⟩ := List.mem_map.1 hr
      exact hrowsNo i
    · intro i
      rw [List.getElem?_map]
      by_cases hi : i < M.num_states
      · rw [List.getElem?_range hi, if_pos hi]
        rfl
      · rw [List.getElem?_eq_none (by simpa using Nat.le_of_not_lt hi), if_neg hi]
        rfl
  · refine ⟨cs.map fun c => (List.range M.num_states).map (M.probsCov c),
      rfl, by simp, ?_, ?_, ?_⟩
    · rw [List.map_map, List.eq_replicate_iff]
      refine ⟨by simp, ?_⟩
      intro b hb
      obtain ⟨c, _, rfl⟩ := List.mem_map.1 hb
      simp
    · intro mt hmt r hr
      obtain ⟨c, _, rfl⟩ := List.mem_map.1 hmt
      obtain ⟨i, _, rfl⟩ := List.mem_map.1 hr
      exact hrowsCov c i
    · intro j i
      rw [List.getElem?_map]
      cases hj : cs[j]? with
      | none => rfl
      | some c =>
          show ((List.range M.num_states).map (M.probsCov c))[i]? =
            if i < M.num_states then some (M.probsCov c i) else none
          rw [List.getElem?_map]
          by_cases hi : i < M.num_states
          · rw [List.getElem?_range hi, if_pos hi]
            rfl
          · rw [List.getElem?_eq_none (by simpa using Nat.le_of_not_lt hi), if_neg hi]
            rfl

/-- C5 witness: `c5_compute_transition_matrices` instantiated at the
concrete two-state transition surface `exTransDist` and two covariate
values. -/
theorem c5_compute_transition_matrices_witness :
    (∃ rows, compute_transition_matrices exTransDist none = .homogeneous rows
      ∧ rows.length = exTransDist.num_states
      ∧ (∀ r ∈ rows, r.length = exTransDist.num_states)
      ∧ (∀ i : ℕ, rows[i]? =
          if i < exTransDist.num_states then some (exTransDist.probsNoCov i) else none))
    ∧ (∃ mats, compute_transition_matrices exTransDist (some [1/4, 3/4]) = .batched mats
      ∧ mats.length = ([(1:ℚ)/4, 3/4]).length
      ∧ mats.map List.length = List.replicate ([(1:ℚ)/4, 3/4]).length exTransDist.num_states
      ∧ (∀ mt ∈ mats, ∀ r ∈ mt, r.length = exTransDist.num_states)
      ∧ (∀ j i : ℕ, mats[j]?.bind (fun mt => mt[i]?) =
          ([(1:ℚ)/4, 3/4])[j]?.bind (fun c =>
            if i < exTransDist.num_states then some (exTransDist.probsCov c i) else none))) :=
  c5_compute_transition_matrices exTransDist [1/4, 3/4]
    (by intro i; simp only [exTransDist]; split <;> rfl)
    (by intro c i; simp only [exTransDist]; split <;> rfl)

/-- C1: the closed-form sub-steps of `StandardHMM.m_step` (run in source
order on the model record) set the initial-probability vector to the
Dirichlet-posterior mode at concentration "stored prior concentration plus
the batchwise sum of expected initial-state occupancies", and set each
transition-matrix row `j` to the Dirichlet-posterior mode at concentration
"stored prior concentration plus row `j` of the batchwise sum of expected
pairwise transition counts"; the stored (frozen) concentration
hyperparameters themselves are unchanged. -/
theorem c1_conjugate_posterior_mode (m : StandardHMMParams) (posts : List Posterior) :
    (m_step_transition_matrix (m_step_initial_probs m posts) posts).initial_probs =
      dirichletMode (vadd m.initial_probs_concentration
        (sumVecs (posts.map Posterior.initial_probs)))
    ∧ (∀ j : ℕ,
        (m_step_transition_matrix (m_step_initial_probs m posts) posts).transition_matrix[j]? =
          ((sumMats (posts.map fun p => transProbsMat p.trans_probs))[j]?).map
            (fun countsRow =>
              dirichletMode (vadd m.transition_matrix_concentration countsRow)))
    ∧ (m_step_transition_matrix (m_step_initial_probs m posts) posts).initial_probs_concentration =
        m.initial_probs_concentration
    ∧ (m_step_transition_matrix (m_step_initial_probs m posts) posts).transition_matrix_concentration =
        m.transition_matrix_concentration := by
  refine ⟨rfl, ?_, rfl, rfl⟩
  intro j
  show ((addToRows m.transition_matrix_concentration
      (sumMats (posts.map fun p => transProbsMat p.trans_probs))).map dirichletMode)[j]? = _
  rw [addToRows, List.getElem?_map, List.getElem?_map, Option.map_map]
  rfl

/-- C4: for each sequence of a batch, `e_step` produces a posterior whose
`trans_probs` is the pairwise transition counts summed over time exactly
when the transition-matrix statistic has rank 2 (time-homogeneous, no
covariates), and is the per-time-step tensor (`reduce_sum=False`) exactly
when that statistic has a higher rank. -/
theorem c4_e_step_reduce_switch {Obs : Type} (M : BaseHMMSig Obs)
    (batch : List (List Obs)) (i : ℕ) (e : List Obs)
    (he : batch[i]? = some e) :
    ∃ p, (e_step M batch)[i]? = some p
      ∧ (M.transMats.ndim = 2 →
          p.trans_probs = .reduced (sumMats (M.transCounts M.transMats
            (M.hmm_two_filter_smoother M.initialProbs M.transMats (M.condLogliks e)))))
      ∧ (M.transMats.ndim ≠ 2 →
          p.trans_probs = .perStep (M.transCounts M.transMats
            (M.hmm_two_filter_smoother M.initialProbs M.transMats (M.condLogliks e)))) := by
  refine ⟨eStepSingle M e, ?_, ?_, ?_⟩
  · rw [e_step, List.getElem?_map, he]
    rfl
  · intro h2
    have hb : (M.transMats.ndim == 2) = true := beq_iff_eq.mpr h2
    show compute_transition_probs M.transCounts M.transMats
      (M.hmm_two_filter_smoother M.initialProbs M.transMats (M.condLogliks e))
      (M.transMats.ndim == 2) = _
    rw [hb, compute_transition_probs, if_pos rfl]
  · intro hne
    have hb : (M.transMats.ndim == 2) = false := by
      simpa using hne
    show compute_transition_probs M.transCounts M.transMats
      (M.hmm_two_filter_smoother M.initialProbs M.transMats (M.condLogliks e))
      (M.transMats.ndim == 2) = _
    rw [hb, compute_transition_probs]
    simp

/-- C4 witness: `c4_e_step_reduce_switch` instantiated at the concrete
homogeneous model `exSig` and a one-sequence batch. -/
theorem c4_e_step_reduce_switch_witness :
    ∃ p, (e_step exSig [[[1, 0], [0, 1]]])[0]? = some p
      ∧ (exSig.transMats.ndim = 2 →
          p.trans_probs = .reduced (sumMats (exSig.transCounts exSig.transMats
            (exSig.hmm_two_filter_smoother exSig.initialProbs exSig.transMats
              (exSig.condLogliks [[1, 0], [0, 1]])))))
      ∧ (exSig.transMats.ndim ≠ 2 →
          p.trans_probs = .perStep (exSig.transCounts exSig.transMats
            (exSig.hmm_two_filter_smoother exSig.initialProbs exSig.transMats
              (exSig.condLogliks [[1, 0], [0, 1]])))) :=
  c4_e_step_reduce_switch exSig [[[1, 0], [0, 1]]] 0 [[1, 0], [0, 1]] rfl

/-- C6: `fit_em` returns one recorded log-joint entry per iteration, and
the entry of iteration `i` equals the log prior plus the summed marginal
log-likelihoods of the E-step posteriors, both evaluated at the parameters
as they stood at the start of iteration `i` (before that iteration's
M-step). -/
theorem c6_fit_em_trajectory {P Obs : Type} (M : EMModel P Obs)
    (batch : List (List Obs)) (params : P) (num_iters : ℕ) :
    (fit_em M batch params num_iters).2.length = num_iters
    ∧ (∀ i : ℕ, (fit_em M batch params num_iters).2[i]? =
        if i < num_iters then
          some (emLogJoint M batch (emParamsAt M batch params i))
        else none) := by
  induction num_iters generalizing params with
  | zero =>
      exact ⟨rfl, fun i => by simp [fit_em]⟩
  | succ n ih =>
      refine ⟨?_, ?_⟩
      · show ((em_step M batch params).2 ::
            (fit_em M batch (em_step M batch params).1 n).2).length = n + 1
        rw [List.length_cons, (ih (em_step M batch params).1).1]
      · intro i
        have h2 : (fit_em M batch params (n + 1)).2 =
            (em_step M batch params).2 ::
              (fit_em M batch (em_step M batch params).1 n).2 := rfl
        rw [h2]
        cases i with
        | zero =>
            rw [List.getElem?_cons_zero, if_pos (Nat.succ_pos n)]
            rfl
        | succ j =>
            rw [List.getElem?_cons_succ, (ih (em_step M batch params).1).2 j]
            by_cases hj : j < n
            · rw [if_pos hj, if_pos (Nat.succ_lt_succ hj)]
              rfl
            · rw [if_neg hj, if_neg (fun hc => hj (Nat.lt_of_succ_lt_succ hc))]

/-- C7: `fit_em` with `num_iters = 0` returns the starting parameters
unchanged together with an empty log-probability trajectory; and writing a
`Parameter` back through its unconstrained view (the final
`self.unconstrained_params = params` of the loop) leaves its constrained
value unchanged whenever the bijector round-trips. -/
theorem c7_fit_em_zero_iters {P Obs A B : Type} (M : EMModel P Obs)
    (batch : List (List Obs)) (params : P) (par : Param A B)
    (hround : ∀ a, par.bij.inverse (par.bij.forward a) = a) :
    fit_em M batch params 0 = (params, [])
    ∧ par.setUnconstrained par.unconstrained = par := by
  refine ⟨rfl, ?_⟩
  show { par with value := par.bij.inverse (par.bij.forward par.value) } = par
  rw [hround]

/-- C7 witness: `c7_fit_em_zero_iters` instantiated at the concrete model
`exEMModel` and the identity-bijector parameter `exParam`. -/
theorem c7_fit_em_zero_iters_witness :
    fit_em exEMModel [[1, 2], [3]] (5 : ℚ) 0 = ((5 : ℚ), [])
    ∧ exParam.setUnconstrained exParam.unconstrained = exParam :=
  c7_fit_em_zero_iters exEMModel [[1, 2], [3]] 5 exParam (fun _ => rfl)

/-- C3 (amended): the per-sequence helper of `_m_step_emissions` does
accumulate into the local `lp` before any assignment, but evaluation fails
one line earlier with an attribute error on the undefined
`_conditional_logliks`; had that attribute resolved, evaluation would fail
with the unbound-local error on `lp`. In either case no loss value is ever
produced. -/
theorem c3_emission_objective_never_returns :
    (∀ (emissions : List Vec) (posterior : Posterior),
      single_expected_log_like condLogliksAttrLookup emissions posterior =
        .error (.attributeError "_conditional_logliks"))
    ∧ (∀ (f : List Vec → Mat) (emissions : List Vec) (posterior : Posterior),
      single_expected_log_like (some f) emissions posterior =
        .error (.unboundLocal "lp")) :=
  ⟨fun _ _ => rfl, fun _ _ _ => rfl⟩

/-- C3 counterexample: at a concrete input, evaluating the per-sequence
helper of `_m_step_emissions` raises the attribute error for the undefined
`_conditional_logliks` (read on the line before the uninitialised `lp`
accumulation), not the unbound-local error the claim names. -/
theorem c3_unbound_local_counterexample :
    single_expected_log_like condLogliksAttrLookup [[1, 0]] exPost1 =
      .error (.attributeError "_conditional_logliks")
    ∧ single_expected_log_like condLogliksAttrLookup [[1, 0]] exPost1 ≠
      .error (.unboundLocal "lp") :=
  ⟨rfl, by simp [single_expected_log_like, condLogliksAttrLookup]⟩

/-- C2: at a concrete model, nonempty batch and the default 50 emission
M-step iterations, `StandardHMM.m_step` raises (the attribute error hit by
the first evaluation of the emission objective) instead of returning with
updated parameters, because its `_m_step_emissions` sub-step evaluates the
broken per-sequence objective. -/
theorem c2_m_step_raises :
    std_m_step condLogliksAttrLookup (fun (p : ℚ) => p) (fun p _ => p)
      exModel (0 : ℚ) exBatch exPosts 1 50 =
      .error (.attributeError "_conditional_logliks") := rfl

/-- Helper: every element of every chunk produced by `chunkListAux` is an
element of the chunked list. -/
theorem mem_of_mem_chunkListAux {α : Type} (b : ℕ) :
    ∀ (fuel : ℕ) (l c : List α), c ∈ chunkListAux b fuel l → ∀ x ∈ c, x ∈ l := by
  intro fuel
  induction fuel with
  | zero =>
      intro l c hc
      simp [chunkListAux] at hc
  | succ n ih =>
      intro l c hc x hx
      cases l with
      | nil => simp [chunkListAux] at hc
      | cons y ys =>
          simp only [chunkListAux, List.mem_cons] at hc
          rcases hc with h | h
          · subst h
            rcases List.mem_cons.1 hx with h2 | h2
            · exact h2 ▸ List.mem_cons_self y ys
            · exact List.mem_cons_of_mem _ (List.take_subset _ _ h2)
          · exact List.mem_cons_of_mem _
              (List.drop_subset _ _ (ih (ys.drop b) c h x hx))

/-- Helper: every element of every chunk of `chunkList` is an element of
the chunked list. -/
theorem mem_of_mem_chunkList {α : Type} (b : ℕ) (l c : List α)
    (hc : c ∈ chunkList b l) : ∀ x ∈ c, x ∈ l :=
  mem_of_mem_chunkListAux b l.length l c hc

/-- C8: the `fit_sgd` minibatch loss equals the negative of the log prior
plus the minibatch's per-sequence marginal log-likelihoods (each computed
by the external filter primitive) scaled by the full-batch to minibatch
sequence-count ratio, normalized by the total element count of the full
emissions batch; and every minibatch of the SGD schedule consists of whole
sequences of the (possibly shuffled) batch — no sequence is ever split. -/
theorem c8_sgd_loss_and_whole_sequences {P : Type} (mdl : P → BaseHMMSig Vec)
    (batch_emissions : List (List Vec)) (params : P)
    (minibatch_emissions : List (List Vec)) (order : List (List Vec))
    (batch_size : ℕ) (horder : order.Perm batch_emissions) :
    sgd_loss_fn mdl batch_emissions params minibatch_emissions =
      (-((mdl params).log_prior +
        (minibatch_emissions.map fun e =>
          ((mdl params).hmm_filter (mdl params).initialProbs (mdl params).transMats
            ((mdl params).condLogliks e)).marginal_loglik).sum *
          ((batch_emissions.length : ℚ) / (minibatch_emissions.length : ℚ))))
        / (jsize batch_emissions : ℚ)
    ∧ (∀ mb ∈ sgdMinibatches order batch_size, ∀ s ∈ mb, s ∈ batch_emissions) := by
  constructor
  · rfl
  · intro mb hmb s hs
    exact horder.subset (mem_of_mem_chunkList (batch_size - 1) order mb hmb s hs)

/-- C8 witness: `c8_sgd_loss_and_whole_sequences` instantiated at the
concrete model `exSig`, the batch `exBatch` (unshuffled), its first
sequence as minibatch, and batch size 1. -/
theorem c8_sgd_loss_and_whole_sequences_witness :
    sgd_loss_fn (fun (_ : ℚ) => exSig) exBatch 0 [[[1, 0], [0, 1]]] =
      (-(((fun (_ : ℚ) => exSig) 0).log_prior +
        ([[[1, 0], [0, 1]]].map fun e =>
          (((fun (_ : ℚ) => exSig) 0).hmm_filter ((fun (_ : ℚ) => exSig) 0).initialProbs
            ((fun (_ : ℚ) => exSig) 0).transMats
            (((fun (_ : ℚ) => exSig) 0).condLogliks e)).marginal_loglik).sum *
          ((exBatch.length : ℚ) / (([[[(1:ℚ), 0], [0, 1]]]).length : ℚ))))
        / (jsize exBatch : ℚ)
    ∧ (∀ mb ∈ sgdMinibatches exBatch 1, ∀ s ∈ mb, s ∈ exBatch) :=
  c8_sgd_loss_and_whole_sequences (fun _ => exSig) exBatch 0 [[[1, 0], [0, 1]]]
    exBatch 1 (List.Perm.refl exBatch)
